import Mathlib

/-!
Shallow embedding of the pprof snapshot server in `pprof-repo/main.go`.

The server keeps an on-disk catalog directory of `<id>.pprof` files and an
in-memory `Handler` holding the upload token, the catalog directory, the set
of route patterns registered on its `http.ServeMux`, and the ordered list of
loaded profiles.  `LoadProfile` stats and opens a file, parses it, asks the
pprof driver for a handler tree (mounted on the mux under
`/profiles/<id><subpath>`), then appends a `ProfileInfo` entry and re-sorts
the list by descending modification time.  `upload` authenticates via the
`x-upload-token` header, validates the `name` form field against
`^[a-zA-Z0-9_\-]+$`, persists the uploaded bytes with
`O_CREATE|O_WRONLY|O_TRUNC`, and calls `LoadProfile`.  `ServeHTTP` routes
`GET /` to the index page, `POST /upload` to upload, `/profiles/...` to the
mux, and everything else to 404.

Modelling conventions: machine time is a `Nat` tick; file contents are
`String`s; the snapshot parser (external `profile.Parse`) is a parameter
`parse : String → Bool`; the visualization engine's handler tree (external
`driver.PProf` calling back `options.HTTPServer` with `ha.Handlers`) is a
parameter `hpaths : List String` of handler subpaths.  Registering a pattern
that is already present on a Go `http.ServeMux` panics; that outcome is the
`panicked` constructor.  A Go handler that returns without writing anything
is an implicit `200 OK` empty response, which the model makes explicit.
-/

namespace PprofRepo

/-- One file on disk: raw bytes plus the modification time reported by
`os.Stat`, modelled as a `Nat` tick. -/
structure FileData where
  bytes : String
  mtime : Nat
deriving DecidableEq

/-- The catalog directory, modelled as an association list from path to file
data.  A write prepends and shadows older entries; reads take the newest. -/
abbrev FS := List (String × FileData)

/-- Look up a path (first, i.e. newest, entry wins). -/
def fsRead : FS → String → Option FileData
  | [], _ => none
  | (q, d) :: rest, p => if q = p then some d else fsRead rest p

/-- Write a file: the new entry shadows any previous entry for the path.
This models both creation and truncate-then-overwrite of an existing file. -/
def fsWrite (fs : FS) (p : String) (d : FileData) : FS :=
  (p, d) :: fs

/-- Catalog entry, from `type ProfileInfo struct { Name string; ModTime time.Time }`. -/
structure ProfileInfo where
  name : String
  modTime : Nat
deriving DecidableEq

/-- Server state, from `type Handler struct`.  `profileMux` is the set of
patterns registered on the `http.ServeMux`, newest first.  The Go struct has
no mutex; nothing here is guarded by a lock. -/
structure Handler where
  uploadToken : String
  profilesDir : String
  profileMux : List String
  profiles : List ProfileInfo
deriving DecidableEq

/-- Handler as built by `run()`: fresh `http.NewServeMux()`, nil profile list. -/
def handlerInit (tok dir : String) : Handler :=
  { uploadToken := tok, profilesDir := dir, profileMux := [], profiles := [] }

/-- Characters of a path after its last slash (helper for `filepath.Base`). -/
def afterLastSlash (l : List Char) : List Char :=
  l.foldl (fun acc c => if c = '/' then [] else acc ++ [c]) []

/-- Embedding of Go `filepath.Base`: empty path gives ".", a path of slashes
gives "/", otherwise the last component with trailing slashes removed. -/
def goFilepathBase (p : String) : String :=
  if p = "" then "." else
  match (p.data.reverse.dropWhile (fun c => c = '/')).reverse with
  | [] => "/"
  | t => String.mk (afterLastSlash t)

/-- Helper for `filepath.Ext`: walk the reversed path, stopping at a slash,
and return the extension (including the dot) once the dot is found. -/
def extAux : List Char → List Char → List Char
  | _, [] => []
  | acc, c :: rest =>
    if c = '/' then [] else if c = '.' then '.' :: acc else extAux (c :: acc) rest

/-- Embedding of Go `filepath.Ext`: the suffix starting at the final dot of
the last path element, empty if there is no dot. -/
def goFilepathExt (p : String) : String :=
  String.mk (extAux [] p.data.reverse)

/-- Embedding of Go `strings.TrimSuffix`. -/
def goTrimSuffix (s suf : String) : String :=
  if suf.data.isSuffixOf s.data then
    String.mk (s.data.take (s.data.length - suf.data.length))
  else s

/-- The profile id computed in `LoadProfile`:
`strings.TrimSuffix(filepath.Base(path), filepath.Ext(path))`. -/
def profileIDOf (path : String) : String :=
  goTrimSuffix (goFilepathBase path) (goFilepathExt path)

/-- Character class of `profileNameRegexp`, which is `^[a-zA-Z0-9_\-]+$`. -/
def isNameChar (c : Char) : Bool :=
  (97 ≤ c.toNat && c.toNat ≤ 122) || (65 ≤ c.toNat && c.toNat ≤ 90) ||
  (48 ≤ c.toNat && c.toNat ≤ 57) || c == '_' || c == '-'

/-- Embedding of `profileNameRegexp.MatchString`: the anchored regex
`^[a-zA-Z0-9_\-]+$` matches exactly the non-empty strings all of whose
characters are in the bracket class. -/
def profileNameMatch (s : String) : Bool :=
  !s.data.isEmpty && s.data.all isNameChar

/-- Short-circuit character-list equality underlying Go string comparison:
it stops at the first mismatching character. -/
def goStrEqAux : List Char → List Char → Bool
  | [], [] => true
  | a :: as, b :: bs => if a = b then goStrEqAux as bs else false
  | _, _ => false

/-- Embedding of the Go `!=`/`==` string comparison used by the upload token
check: a length check, then a left-to-right compare that stops at the first
mismatch.  This is not a constant-time comparison. -/
def goStringEq (s t : String) : Bool :=
  if s.data.length = t.data.length then goStrEqAux s.data t.data else false

/-- Number of character comparisons the short-circuit compare performs: it
grows with the length of the common prefix, which is the timing side channel
the source code's own comment ("should be secure compare") points at. -/
def goStrEqCost : List Char → List Char → Nat
  | [], [] => 0
  | a :: as, b :: bs => 1 + (if a = b then goStrEqCost as bs else 0)
  | _, _ => 0

/-- Route pattern registered for profile `id` and driver handler subpath
`hp`: `fmt.Sprintf("/profiles/%s%s", profileID, handlerPath)`. -/
def routePattern (id hp : String) : String :=
  "/profiles/" ++ (id ++ hp)

/-- All patterns one load registers: one per handler subpath of the tree the
visualization engine returns. -/
def loadPatterns (hpaths : List String) (id : String) : List String :=
  hpaths.map (fun hp => routePattern id hp)

/-- One `ServeMux.Handle` call: Go panics if the pattern is already
registered (`none` models the panic), otherwise records it. -/
def muxHandle (mux : List String) (pat : String) : Option (List String) :=
  if pat ∈ mux then none else some (pat :: mux)

/-- The loop in the `HTTPServer` callback of `LoadProfile`: register every
pattern in turn, panicking (`none`) at the first duplicate. -/
def muxHandleAll : List String → List String → Option (List String)
  | mux, [] => some mux
  | mux, pat :: pats => if pat ∈ mux then none else muxHandleAll (pat :: mux) pats

/-- Comparator of the `sort.Slice` call in `LoadProfile`: entry `a` sorts
before `b` when `a`'s mod time is at least `b`'s (descending recency;
`After` is strict, so `sort.Slice` orders by non-strict `≥` overall). -/
def moreRecent (a b : ProfileInfo) : Prop :=
  b.modTime ≤ a.modTime

instance : DecidableRel moreRecent :=
  fun a b => Nat.decLe b.modTime a.modTime

instance : IsTotal ProfileInfo moreRecent :=
  ⟨fun a b => Nat.le_total b.modTime a.modTime⟩

instance : IsTrans ProfileInfo moreRecent :=
  ⟨fun _ _ _ hab hbc => Nat.le_trans hbc hab⟩

/-- The re-sort of the whole catalog after each append.  `sort.Slice` is
modelled as insertion sort with the same comparator: both produce a sorted
permutation, and on the distinct keys the claims quantify over the sorted
arrangement is unique. -/
def sortProfiles (l : List ProfileInfo) : List ProfileInfo :=
  List.insertionSort moreRecent l

/-- Error taxonomy of `LoadProfile`'s error returns.  `openFailed` is kept
for the `os.Open` return: in this sequential model a file that `os.Stat`
found is still present at `os.Open`, so the constructor is never produced. -/
inductive LoadErr where
  | statFailed
  | openFailed
  | parseFailed
deriving DecidableEq

/-- Outcome of `LoadProfile`: a new handler state, an error value, or a Go
panic escaping the function (duplicate `ServeMux.Handle` registration). -/
inductive LoadOut where
  | ok (h : Handler)
  | err (e : LoadErr)
  | panicked
deriving DecidableEq

/-- Embedding of `Handler.LoadProfile` (main.go lines 156-199): stat, open,
derive the id, parse, mount the driver's handler tree on the mux, append the
catalog entry, re-sort by descending mod time. -/
def loadProfile (parse : String → Bool) (hpaths : List String) (fs : FS) (h : Handler)
    (path : String) : LoadOut :=
  match fsRead fs path with
  | none => LoadOut.err LoadErr.statFailed
  | some fd =>
    if parse fd.bytes then
      match muxHandleAll h.profileMux (loadPatterns hpaths (profileIDOf path)) with
      | none => LoadOut.panicked
      | some mux' =>
        LoadOut.ok { h with profileMux := mux',
                            profiles := sortProfiles
                              (h.profiles ++ [⟨profileIDOf path, fd.mtime⟩]) }
    else LoadOut.err LoadErr.parseFailed

/-- The parts of an upload request the handler reads: the `x-upload-token`
header, the `name` form value, and the `pprof` form file (`none` when
`r.FormFile("pprof")` would return an error, i.e. missing or unreadable). -/
structure UploadRequest where
  token : String
  name : String
  pprofField : Option String
deriving DecidableEq

/-- Outcome of a request: status, body, and the post-state, or a panic. -/
inductive HttpOut where
  | resp (status : Nat) (body : String) (fs : FS) (h : Handler)
  | panicked
deriving DecidableEq

/-- Destination path of an upload: `filepath.Join(dir, name + ".pprof")`. -/
def profilePath (dir nm : String) : String :=
  dir ++ "/" ++ (nm ++ ".pprof")

/-- Embedding of `Handler.upload` (main.go lines 112-154): token gate, name
validation, `O_CREATE|O_WRONLY|O_TRUNC` open (which already truncates the
file to empty), read of the `pprof` form file, copy, then `LoadProfile`.
Status codes as in the source: 401, 400, 500, 201. -/
def upload (parse : String → Bool) (hpaths : List String) (now : Nat) (fs : FS) (h : Handler)
    (r : UploadRequest) : HttpOut :=
  if goStringEq r.token h.uploadToken then
    if profileNameMatch r.name then
      let path := profilePath h.profilesDir r.name
      let fs1 := fsWrite fs path ⟨"", now⟩
      match r.pprofField with
      | none => HttpOut.resp 500 "" fs1 h
      | some bytes =>
        let fs2 := fsWrite fs1 path ⟨bytes, now⟩
        match loadProfile parse hpaths fs2 h path with
        | LoadOut.ok h' => HttpOut.resp 201 ("/profiles/" ++ r.name ++ "\n") fs2 h'
        | LoadOut.err _ => HttpOut.resp 500 "" fs2 h
        | LoadOut.panicked => HttpOut.panicked
    else HttpOut.resp 400 "" fs h
  else HttpOut.resp 401 "" fs h

/-- Outcome of the startup reconciliation loop: a handler, or the process
dying on a propagated panic. -/
inductive RecOut where
  | ok (h : Handler)
  | panicked
deriving DecidableEq

/-- Embedding of the reconciliation loop in `run()` (main.go lines 47-55):
each glob result is loaded; an error return is logged and the loop
continues; a panic is not caught anywhere and kills the process. -/
def reconcile (parse : String → Bool) (hpaths : List String) (fs : FS) :
    Handler → List String → RecOut
  | h, [] => RecOut.ok h
  | h, p :: rest =>
    match loadProfile parse hpaths fs h p with
    | LoadOut.ok h' => reconcile parse hpaths fs h' rest
    | LoadOut.err _ => reconcile parse hpaths fs h rest
    | LoadOut.panicked => RecOut.panicked

/-- States reachable from a freshly constructed handler by successful
`LoadProfile` calls only (the filesystem may change arbitrarily between
calls, covering both uploads and reconciliation). -/
inductive LoadReach (parse : String → Bool) (hpaths : List String) : Handler → Prop where
  | init (tok dir : String) : LoadReach parse hpaths (handlerInit tok dir)
  | step {h h' : Handler} (fs : FS) (path : String) :
      LoadReach parse hpaths h →
      loadProfile parse hpaths fs h path = LoadOut.ok h' →
      LoadReach parse hpaths h'

/-- Every catalog entry's index link target is a mounted route: the pattern
for subpath `hp0` of the entry's id is registered on the mux. -/
def catalogMounted (hp0 : String) (h : Handler) : Prop :=
  ∀ p ∈ h.profiles, routePattern p.name hp0 ∈ h.profileMux

/-- The mux holds exactly the patterns of the cataloged profiles. -/
def muxExact (hpaths : List String) (h : Handler) : Prop :=
  ∀ pat, pat ∈ h.profileMux ↔
    ∃ p ∈ h.profiles, ∃ hp ∈ hpaths, pat = routePattern p.name hp

/-- Interleaving model of the unsynchronized catalog update in
`LoadProfile` (main.go lines 189-196).  The Go struct has no lock, so
`h.Profiles = append(h.Profiles, e)` followed by the re-sort is a plain read
of the slice header followed by a write of the new one.  Each of two
concurrent loaders is two atomic steps: read the catalog into a snapshot,
then write back the sorted snapshot-plus-entry.  `pc` counts a thread's
completed steps. -/
structure RaceState where
  catalog : List ProfileInfo
  pc0 : Nat
  snap0 : List ProfileInfo
  pc1 : Nat
  snap1 : List ProfileInfo
deriving DecidableEq

/-- Both loaders about to start, empty catalog. -/
def raceInit : RaceState :=
  { catalog := [], pc0 := 0, snap0 := [], pc1 := 0, snap1 := [] }

/-- Run one step of the scheduled thread (`false` is thread 0 loading entry
`e0`, `true` is thread 1 loading `e1`); a finished thread does nothing. -/
def raceStep (e0 e1 : ProfileInfo) (s : RaceState) (t : Bool) : RaceState :=
  if t then
    if s.pc1 = 0 then { s with snap1 := s.catalog, pc1 := 1 }
    else if s.pc1 = 1 then
      { s with catalog := sortProfiles (s.snap1 ++ [e1]), pc1 := 2 }
    else s
  else
    if s.pc0 = 0 then { s with snap0 := s.catalog, pc0 := 1 }
    else if s.pc0 = 1 then
      { s with catalog := sortProfiles (s.snap0 ++ [e0]), pc0 := 2 }
    else s

/-- Execute a schedule (a list of thread choices) from the initial state. -/
def raceRun (e0 e1 : ProfileInfo) (sched : List Bool) : RaceState :=
  sched.foldl (raceStep e0 e1) raceInit

/-! Helper lemmas about the embedded operations. -/

/-- The short-circuit character compare decides equality of the lists. -/
theorem goStrEqAux_iff : ∀ as bs : List Char, goStrEqAux as bs = true ↔ as = bs
  | [], [] => by simp [goStrEqAux]
  | [], _ :: _ => by simp [goStrEqAux]
  | _ :: _, [] => by simp [goStrEqAux]
  | a :: as, b :: bs => by
    by_cases h : a = b
    · simp [goStrEqAux, h, goStrEqAux_iff as bs]
    · simp [goStrEqAux, h]

/-- The Go string compare decides string equality (it is only its timing
that leaks information, not its result). -/
theorem goStringEq_iff (s t : String) : goStringEq s t = true ↔ s = t := by
  unfold goStringEq
  by_cases h : s.data.length = t.data.length
  · rw [if_pos h, goStrEqAux_iff]
    exact ⟨fun hd => String.ext hd, fun he => by rw [he]⟩
  · rw [if_neg h]
    constructor
    · intro hf; cases hf
    · intro he; exact absurd (by rw [he]) h

/-- Reading back the path just written returns the new file data. -/
theorem fsRead_fsWrite (fs : FS) (p : String) (d : FileData) :
    fsRead (fsWrite fs p d) p = some d := by
  simp [fsRead, fsWrite]

/-- If registration succeeded, every pattern that went in was fresh. -/
theorem muxHandleAll_fresh : ∀ (pats mux mux' : List String),
    muxHandleAll mux pats = some mux' → ∀ pat ∈ pats, pat ∉ mux
  | [], _, _, _ => by intro pat hp; cases hp
  | p :: ps, mux, mux', hsome => by
    intro pat hpat hmem
    by_cases hpm : p ∈ mux
    · simp [muxHandleAll, hpm] at hsome
    · rcases List.mem_cons.mp hpat with rfl | hps
      · exact hpm hmem
      · have hrec : muxHandleAll (p :: mux) ps = some mux' := by
          simpa [muxHandleAll, hpm] using hsome
        exact muxHandleAll_fresh ps (p :: mux) mux' hrec pat hps
          (List.mem_cons_of_mem _ hmem)

/-- If registration succeeded, the new mux holds exactly the old patterns
plus the registered ones. -/
theorem muxHandleAll_some_iff : ∀ (pats mux mux' : List String),
    muxHandleAll mux pats = some mux' → ∀ x, x ∈ mux' ↔ x ∈ mux ∨ x ∈ pats
  | [], mux, mux', hsome => by
    intro x
    have : mux = mux' := by simpa [muxHandleAll] using hsome
    subst this
    simp
  | p :: ps, mux, mux', hsome => by
    intro x
    by_cases hpm : p ∈ mux
    · simp [muxHandleAll, hpm] at hsome
    · have hrec : muxHandleAll (p :: mux) ps = some mux' := by
        simpa [muxHandleAll, hpm] using hsome
      have := muxHandleAll_some_iff ps (p :: mux) mux' hrec x
      rw [this]
      simp [List.mem_cons]
      tauto

/-- Registration of pairwise-distinct, fresh patterns succeeds. -/
theorem muxHandleAll_total : ∀ (pats mux : List String), pats.Nodup →
    (∀ pat ∈ pats, pat ∉ mux) → ∃ mux', muxHandleAll mux pats = some mux'
  | [], mux, _, _ => ⟨mux, rfl⟩
  | p :: ps, mux, hnd, hf => by
    have hpm : p ∉ mux := hf p (by simp)
    have hnd' : ps.Nodup := (List.nodup_cons.mp hnd).2
    have hpps : p ∉ ps := (List.nodup_cons.mp hnd).1
    have hf' : ∀ pat ∈ ps, pat ∉ p :: mux := by
      intro pat hpat
      rw [List.mem_cons]
      rintro (rfl | hm)
      · exact hpps hpat
      · exact hf pat (List.mem_cons_of_mem _ hpat) hm
    obtain ⟨mux', hmux'⟩ := muxHandleAll_total ps (p :: mux) hnd' hf'
    exact ⟨mux', by simpa [muxHandleAll, hpm] using hmux'⟩

/-- Registration panics as soon as some requested pattern is already
present. -/
theorem muxHandleAll_none : ∀ (pats mux : List String),
    (∃ pat ∈ pats, pat ∈ mux) → muxHandleAll mux pats = none
  | [], _, h => by
    obtain ⟨pat, hp, _⟩ := h
    cases hp
  | p :: ps, mux, h => by
    by_cases hpm : p ∈ mux
    · simp [muxHandleAll, hpm]
    · obtain ⟨pat, hp, hm⟩ := h
      rcases List.mem_cons.mp hp with rfl | hps
      · exact absurd hm hpm
      · have := muxHandleAll_none ps (p :: mux) ⟨pat, hps, List.mem_cons_of_mem _ hm⟩
        simpa [muxHandleAll, hpm] using this

/-- Characterization of a successful `LoadProfile` call: the file was
present, it parsed, every route pattern was freshly registrable, and the new
state appends the entry and re-sorts. -/
theorem loadProfile_ok_elim {parse : String → Bool} {hpaths : List String} {fs : FS}
    {h h' : Handler} {path : String}
    (hok : loadProfile parse hpaths fs h path = LoadOut.ok h') :
    ∃ fd, fsRead fs path = some fd ∧ parse fd.bytes = true ∧
      ∃ mux', muxHandleAll h.profileMux (loadPatterns hpaths (profileIDOf path)) = some mux' ∧
        h'.uploadToken = h.uploadToken ∧ h'.profilesDir = h.profilesDir ∧
        h'.profileMux = mux' ∧
        h'.profiles = sortProfiles (h.profiles ++ [⟨profileIDOf path, fd.mtime⟩]) := by
  cases hfd : fsRead fs path with
  | none => simp [loadProfile, hfd] at hok
  | some fd =>
    by_cases hp : parse fd.bytes = true
    · cases hma : muxHandleAll h.profileMux (loadPatterns hpaths (profileIDOf path)) with
      | none => simp [loadProfile, hfd, hp, hma] at hok
      | some mux' =>
        simp only [loadProfile, hfd, hp, if_true, hma, LoadOut.ok.injEq] at hok
        exact ⟨fd, rfl, hp, mux', rfl, by rw [← hok], by rw [← hok], by rw [← hok],
          by rw [← hok]⟩
    · simp [loadProfile, hfd, hp] at hok

/-- A string equals the empty string exactly when its character list is
empty. -/
theorem string_eq_empty_iff (s : String) : s = "" ↔ s.data = [] := by
  constructor
  · intro h; rw [h]
  · intro h; exact String.ext h

/-- The token compare succeeds on equal strings. -/
theorem goStringEq_self (s : String) : goStringEq s s = true :=
  (goStringEq_iff s s).mpr rfl

/-- The token compare fails on distinct strings. -/
theorem goStringEq_ne {s t : String} (h : s ≠ t) : goStringEq s t = false := by
  cases hg : goStringEq s t
  · rfl
  · exact absurd ((goStringEq_iff s t).mp hg) h

/-- Splitting a concatenation at a distinguished slash: when neither left
part contains a slash, the decomposition is unique. -/
theorem append_slash_inj : ∀ (a b xs ys : List Char),
    ('/' : Char) ∉ a → ('/' : Char) ∉ b →
    a ++ '/' :: xs = b ++ '/' :: ys → a = b ∧ xs = ys
  | [], [], xs, ys, _, _, heq => by
    simp only [List.nil_append, List.cons.injEq] at heq
    exact ⟨rfl, heq.2⟩
  | [], c :: cs, xs, ys, _, hb, heq => by
    simp only [List.nil_append, List.cons_append, List.cons.injEq] at heq
    obtain ⟨h1, _⟩ := heq
    subst h1
    exact absurd (List.mem_cons_self _ _) hb
  | c :: cs, [], xs, ys, ha, _, heq => by
    simp only [List.nil_append, List.cons_append, List.cons.injEq] at heq
    obtain ⟨h1, _⟩ := heq
    subst h1
    exact absurd (List.mem_cons_self _ _) ha
  | c :: cs, d :: ds, xs, ys, ha, hb, heq => by
    simp only [List.cons_append, List.cons.injEq] at heq
    obtain ⟨h1, h2⟩ := heq
    have ih := append_slash_inj cs ds xs ys
      (fun hm => ha (List.mem_cons_of_mem _ hm))
      (fun hm => hb (List.mem_cons_of_mem _ hm)) h2
    exact ⟨by rw [h1, ih.1], ih.2⟩

/-- Character list of a route pattern. -/
theorem routePattern_data (id hp : String) :
    (routePattern id hp).data = "/profiles/".data ++ (id.data ++ hp.data) := by
  simp [routePattern, String.data_append]

/-- For a fixed id, distinct handler subpaths give distinct patterns. -/
theorem routePattern_inj_hp {id hp hp' : String}
    (heq : routePattern id hp = routePattern id hp') : hp = hp' := by
  have hd := congrArg String.data heq
  rw [routePattern_data, routePattern_data] at hd
  exact String.ext (List.append_cancel_left (List.append_cancel_left hd))

/-- Two patterns built from slash-free ids and slash-led subpaths agree only
when the ids agree (the id is the segment before the first slash). -/
theorem routePattern_inj_id {a b hp hp' : String}
    (ha : ('/' : Char) ∉ a.data) (hb : ('/' : Char) ∉ b.data)
    (hhp : ∃ r, hp.data = '/' :: r) (hhp' : ∃ r, hp'.data = '/' :: r)
    (heq : routePattern a hp = routePattern b hp') : a = b := by
  obtain ⟨r1, hr1⟩ := hhp
  obtain ⟨r2, hr2⟩ := hhp'
  have hd := congrArg String.data heq
  rw [routePattern_data, routePattern_data] at hd
  have h1 := List.append_cancel_left hd
  rw [hr1, hr2] at h1
  exact String.ext (append_slash_inj a.data b.data r1 r2 ha hb h1).1

/-- The patterns registered for one load are pairwise distinct when the
driver's handler subpaths are. -/
theorem loadPatterns_nodup (hpaths : List String) (id : String) (hnd : hpaths.Nodup) :
    (loadPatterns hpaths id).Nodup :=
  List.Nodup.map (fun _ _ hxy => routePattern_inj_hp hxy) hnd

/-- A successful load preserves distinctness of catalog ids and the fact
that every cataloged id's route is mounted: the new id's pattern had to be
fresh on the mux, so the new id cannot already be in the catalog. -/
theorem loadProfile_ok_inv {parse : String → Bool} {hpaths : List String} (hp0 : String)
    (hmem : hp0 ∈ hpaths) {fs : FS} {h h' : Handler} {path : String}
    (hok : loadProfile parse hpaths fs h path = LoadOut.ok h')
    (hnd : (h.profiles.map ProfileInfo.name).Nodup) (hcm : catalogMounted hp0 h) :
    (h'.profiles.map ProfileInfo.name).Nodup ∧ catalogMounted hp0 h' := by
  obtain ⟨fd, hfd, hparse, mux', hma, _, _, hpm, hpp⟩ := loadProfile_ok_elim hok
  have hperm : List.Perm (sortProfiles (h.profiles ++ [⟨profileIDOf path, fd.mtime⟩]))
      (h.profiles ++ [⟨profileIDOf path, fd.mtime⟩]) :=
    List.perm_insertionSort moreRecent _
  have hfresh : profileIDOf path ∉ h.profiles.map ProfileInfo.name := by
    intro hmem'
    obtain ⟨p, hpmem, hpname⟩ := List.mem_map.mp hmem'
    have hpat : routePattern (profileIDOf path) hp0 ∈ loadPatterns hpaths (profileIDOf path) :=
      List.mem_map_of_mem _ hmem
    exact muxHandleAll_fresh _ _ _ hma _ hpat (hpname ▸ hcm p hpmem)
  constructor
  · rw [hpp, (hperm.map ProfileInfo.name).nodup_iff, List.map_append]
    simp only [List.map_cons, List.map_nil, List.nodup_append, List.nodup_cons,
      List.not_mem_nil, not_false_eq_true, List.nodup_nil, and_true, List.disjoint_singleton]
    exact ⟨hnd, trivial, hfresh⟩
  · intro p hp
    rw [hpp] at hp
    have hp2 : p ∈ h.profiles ++ [⟨profileIDOf path, fd.mtime⟩] := hperm.mem_iff.mp hp
    have hiff := muxHandleAll_some_iff _ _ _ hma
    rw [List.mem_append] at hp2
    rw [hpm]
    rcases hp2 with hold | hnew
    · exact (hiff _).mpr (Or.inl (hcm p hold))
    · have hpe : p = ⟨profileIDOf path, fd.mtime⟩ := by simpa using hnew
      subst hpe
      exact (hiff _).mpr (Or.inr (List.mem_map_of_mem _ hmem))

/-- Along any sequence of successful loads, catalog ids stay distinct and
every cataloged id's route stays mounted. -/
theorem loadReach_inv (parse : String → Bool) (hpaths : List String) (hp0 : String)
    (hmem : hp0 ∈ hpaths) {h : Handler} (hr : LoadReach parse hpaths h) :
    (h.profiles.map ProfileInfo.name).Nodup ∧ catalogMounted hp0 h := by
  induction hr with
  | init tok dir =>
    refine ⟨by simp [handlerInit], ?_⟩
    intro p hp
    simp [handlerInit] at hp
  | step fs path hr hok ih => exact loadProfile_ok_inv hp0 hmem hok ih.1 ih.2

/-- Along any sequence of successful loads the catalog stays sorted by
descending (non-strict) modification time. -/
theorem loadReach_sorted (parse : String → Bool) (hpaths : List String) {h : Handler}
    (hr : LoadReach parse hpaths h) : List.Sorted moreRecent h.profiles := by
  induction hr with
  | init tok dir => simp [handlerInit]
  | step fs path hr hok ih =>
    obtain ⟨fd, _, _, mux', _, _, _, _, hpp⟩ := loadProfile_ok_elim hok
    rw [hpp]
    exact List.sorted_insertionSort moreRecent _

/-- A reconciliation pass over files with pairwise-distinct, slash-free ids
whose contents parse, from a state whose mux holds exactly the patterns of
its catalog, succeeds (no panic) and adds exactly one catalog entry per
file. -/
theorem reconcile_ok (parse : String → Bool) (hpaths : List String)
    (hnd : hpaths.Nodup) (hsl : ∀ hp ∈ hpaths, ∃ r, hp.data = '/' :: r) (fs : FS) :
    ∀ (paths : List String) (h : Handler),
      (h.profiles.map ProfileInfo.name).Nodup →
      muxExact hpaths h →
      (∀ p ∈ h.profiles, ('/' : Char) ∉ p.name.data) →
      (paths.map profileIDOf).Nodup →
      (∀ q ∈ paths, ('/' : Char) ∉ (profileIDOf q).data) →
      (∀ q ∈ paths, profileIDOf q ∉ h.profiles.map ProfileInfo.name) →
      (∀ q ∈ paths, ∃ fd, fsRead fs q = some fd ∧ parse fd.bytes = true) →
      ∃ h', reconcile parse hpaths fs h paths = RecOut.ok h' ∧
        List.Perm (h'.profiles.map ProfileInfo.name)
          (h.profiles.map ProfileInfo.name ++ paths.map profileIDOf)
  | [], h, _, _, _, _, _, _, _ => ⟨h, rfl, by simp⟩
  | q :: qs, h, hnodup, hmux, hslash, hqnd, hqsl, hfresh, hfiles => by
    obtain ⟨fd, hfd, hparse⟩ := hfiles q (List.mem_cons_self _ _)
    have hidsl : ('/' : Char) ∉ (profileIDOf q).data := hqsl q (List.mem_cons_self _ _)
    have hpatsnd : (loadPatterns hpaths (profileIDOf q)).Nodup := loadPatterns_nodup _ _ hnd
    have hpatsfresh : ∀ pat ∈ loadPatterns hpaths (profileIDOf q), pat ∉ h.profileMux := by
      intro pat hpat hmem
      obtain ⟨hp, hhp, rfl⟩ := List.mem_map.mp hpat
      obtain ⟨p, hpmem, hp', hhp', heq⟩ := (hmux _).mp hmem
      have hid := routePattern_inj_id hidsl (hslash p hpmem) (hsl hp hhp) (hsl hp' hhp') heq
      exact hfresh q (List.mem_cons_self _ _) (hid ▸ List.mem_map_of_mem _ hpmem)
    obtain ⟨mux', hma⟩ := muxHandleAll_total _ _ hpatsnd hpatsfresh
    obtain ⟨h1, hload⟩ : ∃ h1, loadProfile parse hpaths fs h q = LoadOut.ok h1 :=
      ⟨{ h with profileMux := mux',
                profiles := sortProfiles (h.profiles ++ [⟨profileIDOf q, fd.mtime⟩]) },
        by simp [loadProfile, hfd, hparse, hma]⟩
    obtain ⟨fd', hfd', _, mux'', hma'', _, _, hpm1, hpp1⟩ := loadProfile_ok_elim hload
    have hfdeq : fd' = fd := by
      rw [hfd] at hfd'
      injection hfd' with hfd''
      exact hfd''.symm
    have hmxeq : mux'' = mux' := by
      rw [hma] at hma''
      injection hma'' with hma'''
      exact hma'''.symm
    rw [hfdeq] at hpp1
    rw [hmxeq] at hpm1
    have hmem1 : ∀ p, p ∈ h1.profiles ↔ p ∈ h.profiles ∨ p = ⟨profileIDOf q, fd.mtime⟩ := by
      intro p
      rw [hpp1]
      simp [sortProfiles]
    have hnames1 : List.Perm (h1.profiles.map ProfileInfo.name)
        (h.profiles.map ProfileInfo.name ++ [profileIDOf q]) := by
      rw [hpp1]
      have hx := (List.perm_insertionSort moreRecent
        (h.profiles ++ [⟨profileIDOf q, fd.mtime⟩])).map ProfileInfo.name
      simpa [sortProfiles] using hx
    have hfreshq : profileIDOf q ∉ h.profiles.map ProfileInfo.name :=
      hfresh q (List.mem_cons_self _ _)
    have hqnd' : (qs.map profileIDOf).Nodup ∧ profileIDOf q ∉ qs.map profileIDOf := by
      rw [List.map_cons, List.nodup_cons] at hqnd
      exact ⟨hqnd.2, hqnd.1⟩
    have inv1 : (h1.profiles.map ProfileInfo.name).Nodup := by
      rw [hnames1.nodup_iff]
      simp only [List.nodup_append, List.nodup_cons, List.not_mem_nil, not_false_eq_true,
        List.nodup_nil, and_true, List.disjoint_singleton]
      exact ⟨hnodup, trivial, hfreshq⟩
    have inv2 : muxExact hpaths h1 := by
      intro pat
      rw [hpm1, muxHandleAll_some_iff _ _ _ hma pat]
      constructor
      · rintro (hm | hp)
        · obtain ⟨p, hpmem, hp', hhp', rfl⟩ := (hmux _).mp hm
          exact ⟨p, (hmem1 p).mpr (Or.inl hpmem), hp', hhp', rfl⟩
        · obtain ⟨hp', hhp', rfl⟩ := List.mem_map.mp hp
          exact ⟨⟨profileIDOf q, fd.mtime⟩, (hmem1 _).mpr (Or.inr rfl), hp', hhp', rfl⟩
      · rintro ⟨p, hpmem, hp', hhp', rfl⟩
        rcases (hmem1 p).mp hpmem with hold | hnew
        · exact Or.inl ((hmux _).mpr ⟨p, hold, hp', hhp', rfl⟩)
        · subst hnew
          exact Or.inr (List.mem_map_of_mem _ hhp')
    have inv3 : ∀ p ∈ h1.profiles, ('/' : Char) ∉ p.name.data := by
      intro p hp
      rcases (hmem1 p).mp hp with hold | hnew
      · exact hslash p hold
      · subst hnew
        exact hidsl
    have inv6 : ∀ q' ∈ qs, profileIDOf q' ∉ h1.profiles.map ProfileInfo.name := by
      intro q' hq' hmem'
      rcases (List.mem_append.mp (hnames1.mem_iff.mp hmem')) with hold | hnew
      · exact hfresh q' (List.mem_cons_of_mem _ hq') hold
      · have : profileIDOf q' = profileIDOf q := by simpa using hnew
        exact hqnd'.2 (this ▸ List.mem_map_of_mem _ hq')
    obtain ⟨h', hrec', hperm'⟩ := reconcile_ok parse hpaths hnd hsl fs qs h1
      inv1 inv2 inv3 hqnd'.1
      (fun q' hq' => hqsl q' (List.mem_cons_of_mem _ hq'))
      inv6
      (fun q' hq' => hfiles q' (List.mem_cons_of_mem _ hq'))
    refine ⟨h', ?_, ?_⟩
    · simp only [reconcile, hload]
      exact hrec'
    · have hstep := hperm'.trans (hnames1.append_right (qs.map profileIDOf))
      simpa [List.append_assoc] using hstep

/-! The claims. -/

/-- Claim C1 is false in its reconciliation part: over the unchanged
one-file directory, a first in-process reconciliation loads the file and a
second one panics while re-registering the already-mounted route, instead
of yielding a one-entry catalog. -/
theorem reconcile_twice_c1_counterexample :
    reconcile (fun _ => true) ["/"] [("profiles/a.pprof", ⟨"P", 1⟩)]
        (handlerInit "pprof" "profiles") ["profiles/a.pprof"] =
      RecOut.ok { uploadToken := "pprof", profilesDir := "profiles",
                  profileMux := ["/profiles/a/"], profiles := [⟨"a", 1⟩] } ∧
    reconcile (fun _ => true) ["/"] [("profiles/a.pprof", ⟨"P", 1⟩)]
        { uploadToken := "pprof", profilesDir := "profiles",
          profileMux := ["/profiles/a/"], profiles := [⟨"a", 1⟩] }
        ["profiles/a.pprof"] =
      RecOut.panicked := by decide

/-- Claim C1 (amended): along every sequence of successful loads no two
catalog entries share an id (a load whose id is already mounted panics at
route registration before appending, so duplicates never arise); and one
startup reconciliation from a fresh handler over files with distinct,
slash-free ids whose contents parse yields exactly one catalog entry per
file, with no duplicates.  Running the reconciliation a second time in the
same process panics instead of completing (see the counterexample). -/
theorem catalog_unique_c1 (parse : String → Bool) (hpaths : List String) (hp0 : String)
    (hmem : hp0 ∈ hpaths) (hnd : hpaths.Nodup)
    (hsl : ∀ hp ∈ hpaths, ∃ r, hp.data = '/' :: r)
    (h : Handler) (hr : LoadReach parse hpaths h)
    (fs : FS) (tok dir : String) (paths : List String)
    (hids : (paths.map profileIDOf).Nodup)
    (hqsl : ∀ q ∈ paths, ('/' : Char) ∉ (profileIDOf q).data)
    (hfiles : ∀ q ∈ paths, ∃ fd, fsRead fs q = some fd ∧ parse fd.bytes = true) :
    (h.profiles.map ProfileInfo.name).Nodup ∧
    ∃ h', reconcile parse hpaths fs (handlerInit tok dir) paths = RecOut.ok h' ∧
      List.Perm (h'.profiles.map ProfileInfo.name) (paths.map profileIDOf) ∧
      (h'.profiles.map ProfileInfo.name).Nodup := by
  refine ⟨(loadReach_inv parse hpaths hp0 hmem hr).1, ?_⟩
  obtain ⟨h', hrec, hperm⟩ := reconcile_ok parse hpaths hnd hsl fs paths (handlerInit tok dir)
    (by simp [handlerInit])
    (by simp [muxExact, handlerInit])
    (by intro p hp; simp [handlerInit] at hp)
    hids hqsl
    (by intro q hq; simp [handlerInit])
    hfiles
  have hperm' : List.Perm (h'.profiles.map ProfileInfo.name) (paths.map profileIDOf) := by
    simpa [handlerInit] using hperm
  exact ⟨h', hrec, hperm', hperm'.nodup_iff.mpr hids⟩

/-- Concrete instance of catalog_unique_c1: one file, one reconciliation. -/
theorem catalog_unique_c1_witness :
    ((handlerInit "pprof" "profiles").profiles.map ProfileInfo.name).Nodup ∧
    ∃ h', reconcile (fun _ => true) ["/"] [("profiles/a.pprof", ⟨"P", 1⟩)]
        (handlerInit "pprof" "profiles") ["profiles/a.pprof"] = RecOut.ok h' ∧
      List.Perm (h'.profiles.map ProfileInfo.name)
        (["profiles/a.pprof"].map profileIDOf) ∧
      (h'.profiles.map ProfileInfo.name).Nodup :=
  catalog_unique_c1 (fun _ => true) ["/"] "/" (by decide) (by decide)
    (by
      intro hp hhp
      simp only [List.mem_singleton] at hhp
      subst hhp
      exact ⟨[], rfl⟩)
    (handlerInit "pprof" "profiles") (LoadReach.init "pprof" "profiles")
    [("profiles/a.pprof", ⟨"P", 1⟩)] "pprof" "profiles" ["profiles/a.pprof"]
    (by decide) (by decide)
    (by
      intro q hq
      simp only [List.mem_singleton] at hq
      subst hq
      exact ⟨⟨"P", 1⟩, rfl, rfl⟩)

/-- Claim C2 is false as stated: loading the same file twice, the second
load panics inside route registration instead of returning an error value
(first load succeeds, second load is a panic). -/
theorem load_twice_panics_c2_counterexample :
    loadProfile (fun _ => true) ["/"] [("profiles/a.pprof", ⟨"P", 1⟩)]
      (handlerInit "pprof" "profiles") "profiles/a.pprof" =
      LoadOut.ok { uploadToken := "pprof", profilesDir := "profiles",
                   profileMux := ["/profiles/a/"], profiles := [⟨"a", 1⟩] } ∧
    loadProfile (fun _ => true) ["/"] [("profiles/a.pprof", ⟨"P", 1⟩)]
      { uploadToken := "pprof", profilesDir := "profiles",
        profileMux := ["/profiles/a/"], profiles := [⟨"a", 1⟩] }
      "profiles/a.pprof" = LoadOut.panicked := by decide

/-- Claim C2 (amended): stat failures and parse failures are returned as
error values from LoadProfile without crashing; but a load whose id already
has a mounted route panics at ServeMux registration rather than returning
an error. -/
theorem load_error_c2 (parse : String → Bool) (hpaths : List String) (hp0 : String)
    (hmem : hp0 ∈ hpaths) (fs : FS) (h : Handler) (path : String) :
    (fsRead fs path = none →
      loadProfile parse hpaths fs h path = LoadOut.err LoadErr.statFailed) ∧
    (∀ fd, fsRead fs path = some fd → parse fd.bytes = false →
      loadProfile parse hpaths fs h path = LoadOut.err LoadErr.parseFailed) ∧
    (∀ fd, fsRead fs path = some fd → parse fd.bytes = true →
      routePattern (profileIDOf path) hp0 ∈ h.profileMux →
      loadProfile parse hpaths fs h path = LoadOut.panicked) := by
  refine ⟨?_, ?_, ?_⟩
  · intro hfd
    simp [loadProfile, hfd]
  · intro fd hfd hparse
    simp [loadProfile, hfd, hparse]
  · intro fd hfd hparse hmounted
    have hnone := muxHandleAll_none (loadPatterns hpaths (profileIDOf path)) h.profileMux
      ⟨routePattern (profileIDOf path) hp0, List.mem_map_of_mem _ hmem, hmounted⟩
    simp [loadProfile, hfd, hparse, hnone]

/-- Concrete instances of the three branches of load_error_c2. -/
theorem load_error_c2_witness :
    loadProfile (fun _ => true) ["/"] [] (handlerInit "pprof" "profiles") "profiles/a.pprof" =
      LoadOut.err LoadErr.statFailed ∧
    loadProfile (fun _ => false) ["/"] [("profiles/a.pprof", ⟨"P", 1⟩)]
      (handlerInit "pprof" "profiles") "profiles/a.pprof" = LoadOut.err LoadErr.parseFailed ∧
    loadProfile (fun _ => true) ["/"] [("profiles/a.pprof", ⟨"P", 1⟩)]
      { uploadToken := "pprof", profilesDir := "profiles",
        profileMux := ["/profiles/a/"], profiles := [⟨"a", 1⟩] }
      "profiles/a.pprof" = LoadOut.panicked :=
  ⟨(load_error_c2 (fun _ => true) ["/"] "/" (by decide) []
      (handlerInit "pprof" "profiles") "profiles/a.pprof").1 rfl,
   (load_error_c2 (fun _ => false) ["/"] "/" (by decide) [("profiles/a.pprof", ⟨"P", 1⟩)]
      (handlerInit "pprof" "profiles") "profiles/a.pprof").2.1 ⟨"P", 1⟩ rfl rfl,
   (load_error_c2 (fun _ => true) ["/"] "/" (by decide) [("profiles/a.pprof", ⟨"P", 1⟩)]
      { uploadToken := "pprof", profilesDir := "profiles",
        profileMux := ["/profiles/a/"], profiles := [⟨"a", 1⟩] }
      "profiles/a.pprof").2.2 ⟨"P", 1⟩ rfl rfl (by decide)⟩

/-- Claim C3 is false on the code: there is no lock, and the interleaving
read0-read1-write0-write1 of two concurrent loads with distinct identifiers
loses the first entry even though both loaders ran to completion. -/
theorem concurrent_load_lost_update_c3 :
    (raceRun ⟨"a", 1⟩ ⟨"b", 2⟩ [false, true, false, true]).pc0 = 2 ∧
    (raceRun ⟨"a", 1⟩ ⟨"b", 2⟩ [false, true, false, true]).pc1 = 2 ∧
    (raceRun ⟨"a", 1⟩ ⟨"b", 2⟩ [false, true, false, true]).catalog.map ProfileInfo.name
      = ["b"] ∧
    ("a" : String) ∉
      ((raceRun ⟨"a", 1⟩ ⟨"b", 2⟩ [false, true, false, true]).catalog.map
        ProfileInfo.name) := by decide

/-- Claim C3 (amended): the catalog update in LoadProfile is an
unsynchronized read of the profile slice followed by a write of the
appended-and-sorted slice, with no lock anywhere in the Handler.  In a
fully sequential execution of two loaders both entries end up in the final
catalog; the lock-free interleaved execution can lose one (see the
counterexample). -/
theorem sequential_loads_keep_all_c3 (e0 e1 : ProfileInfo) :
    e0.name ∈ ((raceRun e0 e1 [false, false, true, true]).catalog.map ProfileInfo.name) ∧
    e1.name ∈ ((raceRun e0 e1 [false, false, true, true]).catalog.map ProfileInfo.name) := by
  have hrun : (raceRun e0 e1 [false, false, true, true]).catalog = sortProfiles [e0, e1] := rfl
  rw [hrun]
  constructor
  · exact List.mem_map_of_mem _
      ((List.perm_insertionSort moreRecent [e0, e1]).mem_iff.mpr (by simp))
  · exact List.mem_map_of_mem _
      ((List.perm_insertionSort moreRecent [e0, e1]).mem_iff.mpr (by simp))

/-- Concrete instance of sequential_loads_keep_all_c3. -/
theorem sequential_loads_keep_all_c3_witness :
    ("a" : String) ∈
      ((raceRun ⟨"a", 1⟩ ⟨"b", 2⟩ [false, false, true, true]).catalog.map ProfileInfo.name) ∧
    ("b" : String) ∈
      ((raceRun ⟨"a", 1⟩ ⟨"b", 2⟩ [false, false, true, true]).catalog.map ProfileInfo.name) :=
  sequential_loads_keep_all_c3 ⟨"a", 1⟩ ⟨"b", 2⟩

/-- Claim C4: an upload that passes the token and identifier checks but
whose snapshot bytes fail to parse responds 500, leaves the persisted file
(holding the uploaded bytes) on disk, and adds no catalog entry (the
handler state is returned unchanged). -/
theorem upload_parse_failure_c4 (parse : String → Bool) (hpaths : List String) (now : Nat)
    (fs : FS) (h : Handler) (r : UploadRequest) (bytes : String)
    (htok : r.token = h.uploadToken) (hname : profileNameMatch r.name = true)
    (hbytes : r.pprofField = some bytes) (hparse : parse bytes = false) :
    upload parse hpaths now fs h r =
      HttpOut.resp 500 ""
        (fsWrite (fsWrite fs (profilePath h.profilesDir r.name) ⟨"", now⟩)
          (profilePath h.profilesDir r.name) ⟨bytes, now⟩) h ∧
    fsRead (fsWrite (fsWrite fs (profilePath h.profilesDir r.name) ⟨"", now⟩)
        (profilePath h.profilesDir r.name) ⟨bytes, now⟩)
      (profilePath h.profilesDir r.name) = some ⟨bytes, now⟩ := by
  have hg : goStringEq r.token h.uploadToken = true := (goStringEq_iff _ _).mpr htok
  have hload : loadProfile parse hpaths
      (fsWrite (fsWrite fs (profilePath h.profilesDir r.name) ⟨"", now⟩)
        (profilePath h.profilesDir r.name) ⟨bytes, now⟩) h
      (profilePath h.profilesDir r.name) = LoadOut.err LoadErr.parseFailed := by
    simp [loadProfile, fsRead_fsWrite, hparse]
  exact ⟨by simp [upload, hg, hname, hbytes, hload], fsRead_fsWrite _ _ _⟩

/-- Concrete instance of upload_parse_failure_c4. -/
theorem upload_parse_failure_c4_witness :
    upload (fun _ => false) ["/"] 5 [] (handlerInit "pprof" "profiles")
        ⟨"pprof", "a", some "P"⟩ =
      HttpOut.resp 500 ""
        (fsWrite (fsWrite [] (profilePath "profiles" "a") ⟨"", 5⟩)
          (profilePath "profiles" "a") ⟨"P", 5⟩) (handlerInit "pprof" "profiles") ∧
    fsRead (fsWrite (fsWrite [] (profilePath "profiles" "a") ⟨"", 5⟩)
        (profilePath "profiles" "a") ⟨"P", 5⟩) (profilePath "profiles" "a") =
      some ⟨"P", 5⟩ :=
  upload_parse_failure_c4 (fun _ => false) ["/"] 5 [] (handlerInit "pprof" "profiles")
    ⟨"pprof", "a", some "P"⟩ "P" rfl (by decide) rfl rfl

/-- Claim C5: an upload whose x-upload-token header differs from the
configured secret draws a 401 and causes no state change at all: the
filesystem and the handler are returned untouched. -/
theorem upload_wrong_token_c5 (parse : String → Bool) (hpaths : List String) (now : Nat)
    (fs : FS) (h : Handler) (r : UploadRequest) (htok : r.token ≠ h.uploadToken) :
    upload parse hpaths now fs h r = HttpOut.resp 401 "" fs h := by
  simp [upload, goStringEq_ne htok]

/-- Concrete instance of upload_wrong_token_c5. -/
theorem upload_wrong_token_c5_witness :
    upload (fun _ => true) ["/"] 5 [] (handlerInit "pprof" "profiles")
        ⟨"bad", "a", some "P"⟩ =
      HttpOut.resp 401 "" [] (handlerInit "pprof" "profiles") :=
  upload_wrong_token_c5 (fun _ => true) ["/"] 5 [] (handlerInit "pprof" "profiles")
    ⟨"bad", "a", some "P"⟩ (by decide)

/-- Claim C6: identifier validation accepts exactly the non-empty strings
over [A-Za-z0-9_-].  It accepts "prof_1-2"; each of "", "../etc", "a/b",
"a b" is rejected, and an upload carrying such a name (with a correct
token) draws a 400 with no state change. -/
theorem validate_identifier_c6 (parse : String → Bool) (hpaths : List String) (now : Nat)
    (fs : FS) (h : Handler) (r : UploadRequest)
    (htok : r.token = h.uploadToken)
    (hbad : r.name ∈ [("" : String), "../etc", "a/b", "a b"]) :
    (∀ s : String, profileNameMatch s = true ↔
      s ≠ "" ∧ ∀ c ∈ s.data, isNameChar c = true) ∧
    profileNameMatch "prof_1-2" = true ∧
    profileNameMatch r.name = false ∧
    upload parse hpaths now fs h r = HttpOut.resp 400 "" fs h := by
  have hiff : ∀ s : String, profileNameMatch s = true ↔
      s ≠ "" ∧ ∀ c ∈ s.data, isNameChar c = true := by
    intro s
    rw [profileNameMatch, Bool.and_eq_true, Bool.not_eq_true', List.all_eq_true]
    constructor
    · rintro ⟨h1, h2⟩
      refine ⟨?_, h2⟩
      intro he
      rw [string_eq_empty_iff] at he
      rw [he] at h1
      simp at h1
    · rintro ⟨h1, h2⟩
      refine ⟨?_, h2⟩
      cases hd : s.data with
      | nil => exact absurd ((string_eq_empty_iff s).mpr hd) h1
      | cons c cs => rfl
  have hmatch : profileNameMatch r.name = false := by
    simp only [List.mem_cons, List.not_mem_nil, or_false] at hbad
    rcases hbad with hn | hn | hn | hn
    · rw [hn]; decide
    · rw [hn]; decide
    · rw [hn]; decide
    · rw [hn]; decide
  have hg : goStringEq r.token h.uploadToken = true := (goStringEq_iff _ _).mpr htok
  exact ⟨hiff, by decide, hmatch, by simp [upload, hg, hmatch]⟩

/-- Concrete instance of validate_identifier_c6 at name "../etc". -/
theorem validate_identifier_c6_witness :
    (∀ s : String, profileNameMatch s = true ↔
      s ≠ "" ∧ ∀ c ∈ s.data, isNameChar c = true) ∧
    profileNameMatch "prof_1-2" = true ∧
    profileNameMatch "../etc" = false ∧
    upload (fun _ => true) ["/"] 5 [] (handlerInit "pprof" "profiles")
        ⟨"pprof", "../etc", some "P"⟩ =
      HttpOut.resp 400 "" [] (handlerInit "pprof" "profiles") :=
  validate_identifier_c6 (fun _ => true) ["/"] 5 [] (handlerInit "pprof" "profiles")
    ⟨"pprof", "../etc", some "P"⟩ rfl (by decide)

/-- Claim C7: after any sequence of successful loads with pairwise-distinct
load times, the catalog the index page renders (in list order, each entry
linking to /profiles/<id>) is ordered strictly by descending loadedAt, and
every listed id's route pattern is mounted on the mux. -/
theorem index_order_c7 (parse : String → Bool) (hpaths : List String) (hp0 : String)
    (hmem : hp0 ∈ hpaths) (h : Handler) (hr : LoadReach parse hpaths h)
    (hdt : (h.profiles.map ProfileInfo.modTime).Nodup) :
    List.Pairwise (fun a b : ProfileInfo => b.modTime < a.modTime) h.profiles ∧
    catalogMounted hp0 h := by
  refine ⟨?_, (loadReach_inv parse hpaths hp0 hmem hr).2⟩
  have hs : List.Pairwise moreRecent h.profiles := loadReach_sorted parse hpaths hr
  have hne : List.Pairwise (fun a b : ProfileInfo => a.modTime ≠ b.modTime) h.profiles :=
    List.pairwise_map.mp hdt
  exact (hs.and hne).imp
    (fun hab => Nat.lt_of_le_of_ne hab.1 (Ne.symm hab.2))

/-- Concrete instance of index_order_c7 after loads at times 1 then 2. -/
theorem index_order_c7_witness :
    List.Pairwise (fun a b : ProfileInfo => b.modTime < a.modTime)
      ([⟨"b", 2⟩, ⟨"a", 1⟩] : List ProfileInfo) ∧
    catalogMounted "/"
      { uploadToken := "pprof", profilesDir := "profiles",
        profileMux := ["/profiles/b/", "/profiles/a/"],
        profiles := [⟨"b", 2⟩, ⟨"a", 1⟩] } :=
  index_order_c7 (fun _ => true) ["/"] "/" (by decide)
    { uploadToken := "pprof", profilesDir := "profiles",
      profileMux := ["/profiles/b/", "/profiles/a/"],
      profiles := [⟨"b", 2⟩, ⟨"a", 1⟩] }
    (LoadReach.step [("profiles/b.pprof", ⟨"Q", 2⟩)] "profiles/b.pprof"
      ((LoadReach.step [("profiles/a.pprof", ⟨"P", 1⟩)] "profiles/a.pprof"
          (LoadReach.init "pprof" "profiles") (by decide)) :
        LoadReach (fun _ => true) ["/"]
          { uploadToken := "pprof", profilesDir := "profiles",
            profileMux := ["/profiles/a/"], profiles := [⟨"a", 1⟩] })
      (by decide))
    (by decide)

/-- Claim C9 (code bug): the upload token check is the short-circuit Go
string compare, not a constant-time one.  Both equal-length wrong guesses
against secret "pprof" are rejected, but they cost a different number of
character comparisons (1 versus 5), so the timing depends on how many
leading characters of the guess match the secret — exactly what the
source's own comment ("should be secure compare") concedes. -/
theorem token_compare_not_constant_time_c9 :
    goStringEq "aaaaa" "pprof" = false ∧ goStringEq "pproa" "pprof" = false ∧
    goStrEqCost "aaaaa".data "pprof".data = 1 ∧
    goStrEqCost "pproa".data "pprof".data = 5 := by decide

/-- Claim C10: when the token and identifier checks pass but the pprof form
field is missing or unreadable, upload has already opened the destination
with O_TRUNC before reading the field: it responds 500 and adds no catalog
entry, but the previously persisted file of the same id is now empty
rather than untouched. -/
theorem upload_truncates_before_read_c10 (parse : String → Bool) (hpaths : List String)
    (now : Nat) (fs : FS) (h : Handler) (r : UploadRequest) (prev : FileData)
    (htok : r.token = h.uploadToken) (hname : profileNameMatch r.name = true)
    (hmiss : r.pprofField = none)
    (hprev : fsRead fs (profilePath h.profilesDir r.name) = some prev) :
    upload parse hpaths now fs h r =
      HttpOut.resp 500 "" (fsWrite fs (profilePath h.profilesDir r.name) ⟨"", now⟩) h ∧
    fsRead (fsWrite fs (profilePath h.profilesDir r.name) ⟨"", now⟩)
      (profilePath h.profilesDir r.name) = some ⟨"", now⟩ := by
  have hg : goStringEq r.token h.uploadToken = true := (goStringEq_iff _ _).mpr htok
  exact ⟨by simp [upload, hg, hname, hmiss], fsRead_fsWrite _ _ _⟩

/-- Concrete instance of upload_truncates_before_read_c10: the file of id
"a" held "OLD" at time 3 and is empty after the failed upload. -/
theorem upload_truncates_before_read_c10_witness :
    upload (fun _ => true) ["/"] 7 [("profiles/a.pprof", ⟨"OLD", 3⟩)]
        (handlerInit "pprof" "profiles") ⟨"pprof", "a", none⟩ =
      HttpOut.resp 500 ""
        (fsWrite [("profiles/a.pprof", ⟨"OLD", 3⟩)] (profilePath "profiles" "a") ⟨"", 7⟩)
        (handlerInit "pprof" "profiles") ∧
    fsRead (fsWrite [("profiles/a.pprof", ⟨"OLD", 3⟩)] (profilePath "profiles" "a") ⟨"", 7⟩)
      (profilePath "profiles" "a") = some ⟨"", 7⟩ :=
  upload_truncates_before_read_c10 (fun _ => true) ["/"] 7
    [("profiles/a.pprof", ⟨"OLD", 3⟩)] (handlerInit "pprof" "profiles")
    ⟨"pprof", "a", none⟩ ⟨"OLD", 3⟩ rfl (by decide) rfl rfl

end PprofRepo
